import Mathlib

/-!
Shallow embedding of the `mongoose-fuzzy-searching` plugin (src/index.js).

Modelling conventions:
* JS strings are `List Char`; the empty string is `[]` (falsy, like JS `""`).
* JS numbers used as `minSize` are `Int`; possibly-`undefined` arguments are
  wrapped in `Option`.
* Functions that can `throw` return `Except String α`, carrying the message of
  the JS error that would be thrown.
* JS `Set` insertion followed by `Array.from` is modelled by `List.dedup`;
  the spec declares enumeration order non-contractual, only membership matters.
-/

namespace FuzzySearching

/-- Model of `constants.DEFAULT_MIN_SIZE` from src/index.js. -/
def DEFAULT_MIN_SIZE : Int := 2

/-- Model of `constants.DEFAULT_PREFIX_ONLY` from src/index.js. -/
def DEFAULT_PREFIX_ONLY : Bool := false

/-- JS `text.slice(i, i + len)` for a non-negative start index `i`:
the characters at positions `[i, i + len)`, clamped at the end of the string. -/
def jsSlice (t : List Char) (i len : Nat) : List Char := (t.drop i).take len

/-- The `prefixOnly` loop of `nGrams` (src/index.js lines 70-77):
`while (minSize < text.length + 1) { set.add(text.slice(0, minSize)); minSize++ }`. -/
def prefixLoop (t : List Char) (m : Nat) : List (List Char) :=
  if h : m < t.length + 1 then jsSlice t 0 m :: prefixLoop t (m + 1) else []
termination_by t.length + 1 - m

/-- The substring loop of `nGrams` (src/index.js lines 79-86):
`while (minSize <= text.length + 1) { if (index !== 0) set.add(text.slice(--index, index + minSize)); else { minSize++; index = text.length - minSize + 1; } }`.
In the `index === 0` arm JS assigns `index = text.length - minSize + 1` with the
already incremented `minSize`; over `Int` that is `t.length - m`, which we take
in `Nat`.  The two differ only when the new `minSize` exceeds `text.length + 1`,
where the loop guard fails before `index` is ever read, so the truncation is
unobservable. -/
def subLoop (t : List Char) (m : Nat) (i : Nat) : List (List Char) :=
  if h1 : m ≤ t.length + 1 then
    if h2 : i ≠ 0 then
      jsSlice t (i - 1) m :: subLoop t m (i - 1)
    else
      subLoop t (m + 1) (t.length - m)
  else []
termination_by (t.length + 2 - m, i)

/-- Model of `nGrams` (src/index.js lines 43-89).  `text.slice ? text.toLowerCase() : String(text)`
is modelled for string inputs only, i.e. as `List.map Char.toLower`. -/
def nGrams (text : List Char) (minSize : Option Int) (prefixOnly : Bool) :
    Except String (List (List Char)) :=
  let m : Int := match minSize with | none => DEFAULT_MIN_SIZE | some v => v
  if m ≤ 0 then Except.error "minSize must be greater than 0."
  else if text = [] then Except.ok []
  else
    let t : List Char := text.map Char.toLower
    let mN : Nat := m.toNat
    if t.length ≤ mN then Except.ok [t]
    else if prefixOnly = false ∧ t.length + 1 ≤ mN then Except.ok []
    else if prefixOnly then Except.ok (prefixLoop t mN).dedup
    else Except.ok (subLoop t mN (t.length - mN + 1)).dedup

/-- Variant of `nGrams` with the early-return branch guarded by `!prefixOnly && index < 1`
(src/index.js lines 66-68) deleted; everything else is identical.  Used to
state that the deleted branch is dead code. -/
def nGramsNoDeadBranch (text : List Char) (minSize : Option Int) (prefixOnly : Bool) :
    Except String (List (List Char)) :=
  let m : Int := match minSize with | none => DEFAULT_MIN_SIZE | some v => v
  if m ≤ 0 then Except.error "minSize must be greater than 0."
  else if text = [] then Except.ok []
  else
    let t : List Char := text.map Char.toLower
    let mN : Nat := m.toNat
    if t.length ≤ mN then Except.ok [t]
    else if prefixOnly then Except.ok (prefixLoop t mN).dedup
    else Except.ok (subLoop t mN (t.length - mN + 1)).dedup

/-- Helper: `nGrams` rejects any non-positive explicit `minSize`. -/
theorem nGrams_nonpos_error (text : List Char) (m : Int) (p : Bool) (h : m ≤ 0) :
    nGrams text (some m) p = Except.error "minSize must be greater than 0." := by
  simp [nGrams, h]

/-- Helper: `nGrams` never throws when the explicit `minSize` is positive. -/
theorem nGrams_pos_ok (text : List Char) (m : Int) (p : Bool) (h : 0 < m) :
    ∃ r, nGrams text (some m) p = Except.ok r := by
  simp only [nGrams]
  have hm : ¬ m ≤ 0 := by omega
  rw [if_neg hm]
  split
  · exact ⟨_, rfl⟩
  · split
    · exact ⟨_, rfl⟩
    · split
      · exact ⟨_, rfl⟩
      · split
        · exact ⟨_, rfl⟩
        · exact ⟨_, rfl⟩

/-- C5: for every text (including the empty string) and every integer
`minSize ≤ 0`, the n-gram generator fails with the `InvalidArgument` error
"minSize must be greater than 0.", in either mode; the check precedes any
inspection of the text, so even the empty text yields the error rather than
the empty set. -/
theorem C5_nGrams_nonpositive_minSize (text : List Char) (minSize : Int) (prefixOnly : Bool)
    (h : minSize ≤ 0) :
    nGrams text (some minSize) prefixOnly = Except.error "minSize must be greater than 0." :=
  nGrams_nonpos_error text minSize prefixOnly h

/-- Witness for C5 at the empty text and `minSize = 0`. -/
theorem C5_witness :
    (0 : Int) ≤ 0 ∧
      nGrams [] (some 0) true = Except.error "minSize must be greater than 0." :=
  ⟨le_refl 0, C5_nGrams_nonpositive_minSize [] 0 true (le_refl 0)⟩

/-- C6: for every non-empty normalized text and every integer `minSize ≥ 1`
with `length(text) ≤ minSize`, the n-gram generator returns exactly the
single-element collection `[text]`, in both substring and prefix mode. -/
theorem C6_nGrams_short_text (text : List Char) (minSize : Int) (prefixOnly : Bool)
    (hne : text ≠ []) (h1 : 1 ≤ minSize) (h2 : (text.length : Int) ≤ minSize)
    (hnorm : text.map Char.toLower = text) :
    nGrams text (some minSize) prefixOnly = Except.ok [text] := by
  simp only [nGrams, hnorm]
  rw [if_neg (by omega), if_neg hne, if_pos (by omega)]

/-- Witness for C6 at `text = "hi"`, `minSize = 3`, prefix mode. -/
theorem C6_witness :
    (['h', 'i'] : List Char) ≠ [] ∧ (1 : Int) ≤ 3 ∧
      ((['h', 'i'] : List Char).length : Int) ≤ 3 ∧
      (['h', 'i'] : List Char).map Char.toLower = ['h', 'i'] ∧
      nGrams ['h', 'i'] (some 3) true = Except.ok [['h', 'i']] :=
  ⟨by decide, by decide, by decide, by decide,
    C6_nGrams_short_text ['h', 'i'] 3 true (by decide) (by decide) (by decide) (by decide)⟩

/-- Helper: membership in the prefix loop — exactly the takes of length `k`
for `m ≤ k ≤ t.length`. -/
theorem prefixLoop_mem (t : List Char) (s : List Char) (m : Nat) :
    s ∈ prefixLoop t m ↔ ∃ k, m ≤ k ∧ k ≤ t.length ∧ s = t.take k := by
  generalize hfuel : t.length + 1 - m = n
  induction n generalizing m with
  | zero =>
    rw [prefixLoop, dif_neg (by omega)]
    simp only [List.not_mem_nil, false_iff, not_exists]
    intro k h
    omega
  | succ n ih =>
    rw [prefixLoop, dif_pos (by omega)]
    simp only [List.mem_cons]
    rw [ih (m + 1) (by omega)]
    constructor
    · rintro (rfl | ⟨k, hk1, hk2, rfl⟩)
      · exact ⟨m, le_refl m, by omega, by simp [jsSlice]⟩
      · exact ⟨k, by omega, hk2, rfl⟩
    · rintro ⟨k, hk1, hk2, rfl⟩
      rcases Nat.eq_or_lt_of_le hk1 with rfl | hlt
      · exact Or.inl (by simp [jsSlice])
      · exact Or.inr ⟨k, by omega, hk2, rfl⟩

/-- Helper: the substring loop is empty once `minSize` exceeds `text.length + 1`. -/
theorem subLoop_stop (t : List Char) (m i : Nat) (h : t.length + 1 < m) :
    subLoop t m i = [] := by
  rw [subLoop, dif_neg (by omega)]

/-- Helper: one phase of the substring loop emits the length-`m` slices at
offsets `i-1, …, 0` and then continues with length `m+1`. -/
theorem subLoop_phase (t : List Char) (m : Nat) (h : m ≤ t.length + 1) (i : Nat) :
    subLoop t m i =
      ((List.range i).reverse.map (fun j => jsSlice t j m)) ++
        subLoop t (m + 1) (t.length - m) := by
  induction i with
  | zero =>
    rw [subLoop, dif_pos h]
    simp
  | succ n ih =>
    rw [subLoop, dif_pos h, dif_pos (Nat.succ_ne_zero n)]
    simp only [Nat.add_sub_cancel]
    rw [ih, List.range_succ]
    simp

/-- Helper: full membership characterization of the substring loop when entered
with `1 ≤ m ≤ t.length` and the initial index `t.length - m + 1`. -/
theorem subLoop_mem_aux (t : List Char) (s : List Char) :
    ∀ n m, 1 ≤ m → m ≤ t.length → t.length - m = n →
      (s ∈ subLoop t m (t.length - m + 1) ↔
        ∃ j k, m ≤ k ∧ j + k ≤ t.length ∧ s = jsSlice t j k) := by
  intro n
  induction n with
  | zero =>
    intro m h1 h2 h3
    rw [subLoop_phase t m (by omega)]
    have htail : subLoop t (m + 1) (t.length - m) = [] := by
      rw [h3, subLoop, dif_pos (by omega), dif_neg (by omega)]
      exact subLoop_stop t (m + 2) _ (by omega)
    rw [htail, h3]
    simp only [List.append_nil, List.range_succ, List.range_zero, List.nil_append,
      List.reverse_singleton, List.map_cons, List.map_nil, List.mem_singleton]
    constructor
    · rintro rfl
      exact ⟨0, m, le_refl m, by omega, rfl⟩
    · rintro ⟨j, k, hk, hjk, rfl⟩
      have hj : j = 0 := by omega
      have hk2 : k = m := by omega
      rw [hj, hk2]
  | succ n ih =>
    intro m h1 h2 h3
    rw [subLoop_phase t m (by omega)]
    have hstep : t.length - m = t.length - (m + 1) + 1 := by omega
    rw [hstep]
    simp only [List.mem_append, List.mem_map, List.mem_reverse, List.mem_range]
    rw [ih (m + 1) (by omega) (by omega) (by omega)]
    constructor
    · rintro (⟨j, hj, rfl⟩ | ⟨j, k, hk, hjk, rfl⟩)
      · exact ⟨j, m, le_refl m, by omega, rfl⟩
      · exact ⟨j, k, by omega, hjk, rfl⟩
    · rintro ⟨j, k, hk, hjk, rfl⟩
      by_cases hkm : k = m
      · subst hkm
        exact Or.inl ⟨j, by omega, rfl⟩
      · exact Or.inr ⟨j, k, by omega, hjk, rfl⟩

/-- Helper: membership wrapper for the substring loop at its entry point. -/
theorem subLoop_mem_iff (t : List Char) (s : List Char) (m : Nat)
    (h1 : 1 ≤ m) (h2 : m ≤ t.length) :
    s ∈ subLoop t m (t.length - m + 1) ↔
      ∃ j k, m ≤ k ∧ j + k ≤ t.length ∧ s = jsSlice t j k :=
  subLoop_mem_aux t s (t.length - m) m h1 h2 rfl

/-- Helper: being a length-bounded slice is the same as being a contiguous
substring of length at least `m`. -/
theorem slice_iff_substring (t : List Char) (s : List Char) (m : Nat) :
    (∃ j k, m ≤ k ∧ j + k ≤ t.length ∧ s = jsSlice t j k) ↔
      ((∃ u v, u ++ s ++ v = t) ∧ m ≤ s.length) := by
  constructor
  · rintro ⟨j, k, hk, hjk, rfl⟩
    have hlen : (jsSlice t j k).length = k := by
      simp only [jsSlice, List.length_take, List.length_drop]
      omega
    refine ⟨⟨t.take j, t.drop (j + k), ?_⟩, by omega⟩
    have hdd : t.drop (j + k) = (t.drop j).drop k := by
      rw [List.drop_drop, Nat.add_comm]
    rw [jsSlice, hdd, List.append_assoc, List.take_append_drop, List.take_append_drop]
  · rintro ⟨⟨u, v, huv⟩, hm⟩
    refine ⟨u.length, s.length, hm, ?_, ?_⟩
    · have := congrArg List.length huv
      simp only [List.length_append] at this
      omega
    · rw [jsSlice, ← huv, List.append_assoc, List.drop_left, List.take_left]

/-- C1: for every non-empty normalized text and integer `minSize ∈ [1, length text]`,
`nGrams` in substring mode succeeds and its result contains exactly the
contiguous substrings of the text whose length lies in `[minSize, length text]`:
every member is such a substring (soundness) and every such substring is a
member (completeness). -/
theorem C1_nGrams_substrings_exact (text : List Char) (minSize : Int)
    (hne : text ≠ []) (h1 : 1 ≤ minSize) (h2 : minSize ≤ (text.length : Int))
    (hnorm : text.map Char.toLower = text) :
    ∃ res, nGrams text (some minSize) false = Except.ok res ∧
      ∀ s, s ∈ res ↔ ((∃ u v, u ++ s ++ v = text) ∧
        minSize ≤ (s.length : Int) ∧ s.length ≤ text.length) := by
  simp only [nGrams, hnorm]
  rw [if_neg (by omega : ¬ minSize ≤ 0), if_neg hne]
  by_cases hcase : text.length ≤ minSize.toNat
  · rw [if_pos hcase]
    refine ⟨[text], rfl, ?_⟩
    intro s
    simp only [List.mem_singleton]
    constructor
    · rintro rfl
      exact ⟨⟨[], [], by simp⟩, by omega, le_refl _⟩
    · rintro ⟨⟨u, v, huv⟩, hlo, hhi⟩
      have hlen := congrArg List.length huv
      simp only [List.length_append] at hlen
      have hu : u = [] := List.length_eq_zero.mp (by omega)
      have hv : v = [] := List.length_eq_zero.mp (by omega)
      subst hu; subst hv
      simpa using huv
  · rw [if_neg hcase, if_neg (by rintro ⟨-, hd⟩; omega), if_neg (by simp)]
    refine ⟨_, rfl, ?_⟩
    intro s
    rw [List.mem_dedup, subLoop_mem_iff text s minSize.toNat (by omega) (by omega),
      slice_iff_substring]
    constructor
    · rintro ⟨hsub, hlen⟩
      refine ⟨hsub, by omega, ?_⟩
      obtain ⟨u, v, huv⟩ := hsub
      have := congrArg List.length huv
      simp only [List.length_append] at this
      omega
    · rintro ⟨hsub, hlo, hhi⟩
      exact ⟨hsub, by omega⟩

/-- Witness for C1 at `text = "abc"`, `minSize = 2`. -/
theorem C1_witness :
    ∃ res, nGrams ['a', 'b', 'c'] (some 2) false = Except.ok res ∧
      ∀ s, s ∈ res ↔ ((∃ u v, u ++ s ++ v = ['a', 'b', 'c']) ∧
        (2 : Int) ≤ (s.length : Int) ∧ s.length ≤ (['a', 'b', 'c'] : List Char).length) :=
  C1_nGrams_substrings_exact ['a', 'b', 'c'] 2 (by decide) (by decide) (by decide) (by decide)

/-- C2: for every normalized text strictly longer than `minSize ≥ 1`, `nGrams`
in prefix mode succeeds and its result contains exactly the prefixes
`text.take k` for `k ∈ [minSize, length text]`, and nothing else. -/
theorem C2_nGrams_prefixes_exact (text : List Char) (minSize : Int)
    (h1 : 1 ≤ minSize) (h2 : minSize < (text.length : Int))
    (hnorm : text.map Char.toLower = text) :
    ∃ res, nGrams text (some minSize) true = Except.ok res ∧
      ∀ s, s ∈ res ↔ ∃ k : Nat, minSize ≤ (k : Int) ∧ k ≤ text.length ∧ s = text.take k := by
  have hne : text ≠ [] := by
    intro h
    rw [h] at h2
    simp at h2
    omega
  simp only [nGrams, hnorm]
  rw [if_neg (by omega : ¬ minSize ≤ 0), if_neg hne,
    if_neg (by omega : ¬ text.length ≤ minSize.toNat),
    if_neg (by rintro ⟨hb, -⟩; cases hb)]
  simp only [if_true]
  refine ⟨_, rfl, ?_⟩
  intro s
  rw [List.mem_dedup, prefixLoop_mem]
  constructor
  · rintro ⟨k, hk1, hk2, rfl⟩
    exact ⟨k, by omega, hk2, rfl⟩
  · rintro ⟨k, hk1, hk2, rfl⟩
    exact ⟨k, by omega, hk2, rfl⟩

/-- Witness for C2 at `text = "abc"`, `minSize = 2`. -/
theorem C2_witness :
    ∃ res, nGrams ['a', 'b', 'c'] (some 2) true = Except.ok res ∧
      ∀ s, s ∈ res ↔ ∃ k : Nat, (2 : Int) ≤ (k : Int) ∧
        k ≤ (['a', 'b', 'c'] : List Char).length ∧ s = (['a', 'b', 'c'] : List Char).take k :=
  C2_nGrams_prefixes_exact ['a', 'b', 'c'] 2 (by decide) (by decide) (by decide)

/-- C9: the early-return branch guarded by `!prefixOnly && index < 1` in
`nGrams` is dead code: deleting it (as in `nGramsNoDeadBranch`) leaves the
function unchanged on every input, because whenever that guard is reached the
earlier `text.length <= minSize` return has already excluded `index < 1`.
In particular `nGrams` never returns the empty set for non-empty input via
that branch. -/
theorem C9_deadBranch_unreachable (text : List Char) (minSize : Option Int) (prefixOnly : Bool) :
    nGrams text minSize prefixOnly = nGramsNoDeadBranch text minSize prefixOnly := by
  simp only [nGrams, nGramsNoDeadBranch]
  split
  · rfl
  · split
    · rfl
    · split
      · rfl
      · rename_i hm hne hlen
        rw [if_neg]
        intro hdead
        exact hlen (by omega)

/-- The fixed punctuation set removed by `replaceSymbols` (src/index.js
line 128): `! " # % & \x27 ( ) * + , - . / : ; < = > ? @ [ \ ] ^ \x60 \x7b | \x7d ~`. -/
def specialChars : List Char :=
  "!\"#%&\x27()*+,-./:;<=>?@[\\]^\x60\x7b|\x7d~".toList

/-- Model of `replaceSymbols` (src/index.js lines 125-133): lowercase the word,
optionally remove every character of the fixed punctuation set, then replace
every underscore with a space. -/
def replaceSymbols (text : List Char) (escapeSpecialCharacters : Bool) : List Char :=
  let t := text.map Char.toLower
  let t2 := if escapeSpecialCharacters then t.filter (fun c => !(specialChars.contains c)) else t
  t2.map (fun c => if c = '_' then ' ' else c)

/-- JS `text.split(" ")` on a string: split at every single space, keeping
empty segments; the empty string yields `[""]`. -/
def jsSplit : List Char → List (List Char)
  | [] => [[]]
  | c :: rest =>
    match jsSplit rest with
    | [] => [[c]]
    | w :: ws => if c = ' ' then [] :: w :: ws else (c :: w) :: ws

/-- JS `x || d` for a possibly-undefined number `x`: `undefined` and `0` are
falsy and fall back to `d`. -/
def jsNumOr (x : Option Int) (d : Int) : Int :=
  match x with
  | none => d
  | some v => if v = 0 then d else v

/-- Model of `makeNGrams` (src/index.js lines 99-117): split the text on spaces, run
`replaceSymbols` and `nGrams` on each word (with the falsy-default fallbacks
`minSize || DEFAULT_MIN_SIZE` and `prefixOnly || DEFAULT_PREFIX_ONLY`),
concatenate, and deduplicate. -/
def makeNGrams (text : List Char) (escapeSpecialCharacters : Bool)
    (minSize : Option Int) (prefixOnly : Option Bool) :
    Except String (List (List Char)) :=
  if text = [] then Except.ok []
  else do
    let parts ← (jsSplit text).mapM (fun q =>
      nGrams (replaceSymbols q escapeSpecialCharacters)
        (some (jsNumOr minSize DEFAULT_MIN_SIZE))
        (prefixOnly.getD DEFAULT_PREFIX_ONLY))
    Except.ok ((parts.foldl (fun acc arr => acc ++ arr) []).dedup)

/-- Helper: `jsSplit` never returns the empty list of words. -/
theorem jsSplit_ne_nil (t : List Char) : jsSplit t ≠ [] := by
  cases t with
  | nil => simp [jsSplit]
  | cons c rest =>
    cases h : jsSplit rest with
    | nil => simp [jsSplit, h]
    | cons w ws =>
      simp only [jsSplit, h]
      split <;> simp

/-- Helper: `mapM` over `Except` succeeds when every element does. -/
theorem mapM_ok_of_forall {α β : Type} (f : α → Except String β) (l : List α)
    (h : ∀ a ∈ l, ∃ b, f a = Except.ok b) : ∃ bs, l.mapM f = Except.ok bs := by
  induction l with
  | nil => exact ⟨[], rfl⟩
  | cons a l ih =>
    obtain ⟨b, hb⟩ := h a (List.mem_cons_self a l)
    obtain ⟨bs, hbs⟩ := ih (fun x hx => h x (List.mem_cons_of_mem a hx))
    refine ⟨b :: bs, ?_⟩
    rw [List.mapM_cons, hb, hbs]
    rfl

/-- Helper: `mapM` over `Except` propagates an error of the first element. -/
theorem mapM_error_head {α β : Type} (f : α → Except String β) (a : α) (l : List α)
    (e : String) (h : f a = Except.error e) : (a :: l).mapM f = Except.error e := by
  rw [List.mapM_cons, h]
  rfl

/-- C10: `makeNGrams` does not propagate a zero `minSize` to the per-word
n-gram generator: for every non-empty text, an explicit `minSize = 0` is
replaced by the default 2 via the `minSize || DEFAULT_MIN_SIZE` fallback (so
the call succeeds instead of raising `InvalidArgument`), whereas a negative
`minSize` is passed through and raises `InvalidArgument`. -/
theorem C10_makeNGrams_zero_defaulted (text : List Char) (esc : Bool) (p : Option Bool)
    (hne : text ≠ []) :
    makeNGrams text esc (some 0) p = makeNGrams text esc (some 2) p ∧
    (∃ res, makeNGrams text esc (some 0) p = Except.ok res) ∧
    ∀ m : Int, m < 0 →
      makeNGrams text esc (some m) p = Except.error "minSize must be greater than 0." := by
  have hzero : jsNumOr (some 0) DEFAULT_MIN_SIZE = 2 := by simp [jsNumOr, DEFAULT_MIN_SIZE]
  have htwo : jsNumOr (some 2) DEFAULT_MIN_SIZE = 2 := by simp [jsNumOr, DEFAULT_MIN_SIZE]
  refine ⟨?_, ?_, ?_⟩
  · simp only [makeNGrams, hzero, htwo]
  · simp only [makeNGrams, if_neg hne, hzero]
    obtain ⟨bs, hbs⟩ :=
      mapM_ok_of_forall _ (jsSplit text) (fun q _ => nGrams_pos_ok _ 2 _ (by omega))
    rw [hbs]
    exact ⟨_, rfl⟩
  · intro m hm
    have hneg : jsNumOr (some m) DEFAULT_MIN_SIZE = m := by
      simp only [jsNumOr]
      rw [if_neg (by omega)]
    simp only [makeNGrams, if_neg hne, hneg]
    obtain ⟨q, rest, hq⟩ : ∃ q rest, jsSplit text = q :: rest := by
      cases h : jsSplit text with
      | nil => exact absurd h (jsSplit_ne_nil text)
      | cons q rest => exact ⟨q, rest, rfl⟩
    rw [hq, mapM_error_head _ q rest _ (nGrams_nonpos_error _ m _ (by omega))]
    rfl

/-- Witness for C10 at `text = "a"`. -/
theorem C10_witness :
    makeNGrams ['a'] false (some 0) none = makeNGrams ['a'] false (some 2) none ∧
    makeNGrams ['a'] false (some (-1)) none =
      Except.error "minSize must be greater than 0." :=
  ⟨(C10_makeNGrams_zero_defaulted ['a'] false none (by decide)).1,
    (C10_makeNGrams_zero_defaulted ['a'] false none (by decide)).2.2 (-1) (by decide)⟩

/-- The shape of a query object accepted by `fuzzySearch` as its first
argument: the keys it may carry, each possibly absent. -/
structure QueryObj where
  query : Option (List Char)
  minSize : Option Int
  prefixOnly : Option Bool
deriving DecidableEq

/-- A JS value supplied as the first argument of `fuzzySearch`: a string, a
plain object, or some other non-string non-object value (modelled by a
number). -/
inductive FuzzyArg where
  | argStr (s : List Char)
  | argObj (o : QueryObj)
  | argNum (n : Int)
deriving DecidableEq

/-- Model of `isObject` (src/index.js lines 146-148) applied to a possibly-missing
argument: a plain object with at least one own key. -/
def jsIsObject : Option FuzzyArg → Bool
  | some (FuzzyArg.argObj o) => o.query.isSome || o.minSize.isSome || o.prefixOnly.isSome
  | _ => false

/-- JS `typeof x === "string"` applied to a possibly-missing argument. -/
def jsIsString : Option FuzzyArg → Bool
  | some (FuzzyArg.argStr _) => true
  | _ => false

/-- The argument guard of the static `fuzzySearch` (src/index.js lines
371-378), exactly as written in the source:
`args.length === 0 && (typeof args[0] !== "string" || !isObject(args[0]))`. -/
def fuzzySearchThrows (args : List FuzzyArg) : Bool :=
  decide (args.length = 0) && (!(jsIsString args[0]?) || !(jsIsObject args[0]?))

/-- Model of `query.join(" ")`. -/
def joinSpace (l : List (List Char)) : List Char := List.intercalate [' '] l

/-- The static `fuzzySearch` (src/index.js lines 366-393) up to and including
the construction of the `$text` search expression: the argument guard,
extraction of `queryString` / `minSize` / `prefixOnly`, tokenization via
`makeNGrams`, and the join.  A non-string, non-object first argument reaches
`makeNGrams`, where JS throws `TypeError: queryString.split is not a function`
unless the value is falsy (the number `0`), in which case `makeNGrams` returns
the empty token set.  The subsequent delegation to the store's `find` is
external and out of scope. -/
def fuzzySearchQuery (args : List FuzzyArg) : Except String (List Char) :=
  if fuzzySearchThrows args then
    Except.error "Fuzzy Search: First argument is mandatory and must be a string or an object."
  else
    match args[0]? with
    | some (FuzzyArg.argStr s) => do
        let toks ← makeNGrams s false (some DEFAULT_MIN_SIZE) (some DEFAULT_PREFIX_ONLY)
        Except.ok (joinSpace toks)
    | some (FuzzyArg.argObj o) =>
        if jsIsObject (some (FuzzyArg.argObj o)) then do
          let toks ← makeNGrams (o.query.getD []) false o.minSize o.prefixOnly
          Except.ok (joinSpace toks)
        else
          Except.error "queryString.split is not a function"
    | some (FuzzyArg.argNum n) =>
        if n = 0 then Except.ok (joinSpace [])
        else Except.error "queryString.split is not a function"
    | none => Except.error "queryString.split is not a function"

/-- C3 (evaluation at the failing inputs): the `fuzzySearch` guard only fires
when the argument list is empty, because the source combines
`args.length === 0` with the type test using `&&` instead of `||`.  Hence an
empty query string does not raise `InvalidArgument` — the search proceeds
with an empty token list — and a non-string non-object first argument (here
the number 5) passes the guard as well, contradicting the guard's own error
message; only a missing argument raises the advertised error. -/
theorem C3_fuzzySearch_guard_eval :
    fuzzySearchQuery [FuzzyArg.argStr []] = Except.ok [] ∧
    fuzzySearchThrows [FuzzyArg.argNum 5] = false ∧
    fuzzySearchQuery [] =
      Except.error "Fuzzy Search: First argument is mandatory and must be a string or an object." :=
  ⟨rfl, rfl, rfl⟩

/-- The JS value found under `keys` in a field specification: a string, an
array of strings, or some other value (modelled by a number). -/
inductive KeysVal where
  | kstr (s : String)
  | karr (l : List String)
  | knum (n : Int)
deriving DecidableEq

/-- One element of `options.fields`: either a plain field-name string, or an
object `{name, keys?, weight?, minSize?, prefixOnly?, escapeSpecialCharacters?}`
(a non-empty plain object, so `isObject` holds of it). -/
inductive FieldSpec where
  | fstr (name : String)
  | fobj (name : String) (keys : Option KeysVal) (weight : Option Int)
      (minSize : Option Int) (prefixOnly : Option Bool)
      (escapeSpecialCharacters : Option Bool)
deriving DecidableEq

/-- JS truthiness of `item.keys`: absent and the empty string and the number 0
are falsy; arrays (even empty ones) are truthy. -/
def keysTruthy : Option KeysVal → Bool
  | none => false
  | some (KeysVal.kstr s) => s != ""
  | some (KeysVal.karr _) => true
  | some (KeysVal.knum n) => n != 0

/-- The source attribute a specification indexes: the string itself, or the
object's `name`. -/
def fieldName : FieldSpec → String
  | FieldSpec.fstr name => name
  | FieldSpec.fobj name _ _ _ _ _ => name

/-- The `options.fields.forEach` validation at plugin activation
(src/index.js lines 331-339): throws `TypeError("Key must be an array or a
string.")` when a truthy `keys` is neither an array nor a string. -/
def validateKeys : List FieldSpec → Except String Unit
  | [] => Except.ok ()
  | item :: rest =>
    match item with
    | FieldSpec.fobj _ keys _ _ _ _ =>
      if keysTruthy keys then
        match keys with
        | some (KeysVal.knum _) => Except.error "Key must be an array or a string."
        | _ => validateKeys rest
      else validateKeys rest
    | _ => validateKeys rest

/-- What `createFields` (src/index.js lines 218-250) declares on the schema:
the added `[String]` attributes, the added `Mixed` array attributes, the
full-text index entries, and the weight map. -/
structure BuiltSchema where
  addedStringArrays : List String
  addedMixedArrays : List String
  indexes : List (String × String)
  weights : List (String × Int)
deriving DecidableEq

/-- The empty schema state before `createFields` runs. -/
def emptySchema : BuiltSchema := ⟨[], [], [], []⟩

/-- One iteration of the `fields.forEach` in `createFields`.  For a truthy
`keys` the source immediately calls `item.keys.forEach`; JS strings and
numbers have no `forEach` method, so those shapes throw a `TypeError`. -/
def createFieldsStep (st : BuiltSchema) (item : FieldSpec) : Except String BuiltSchema :=
  match item with
  | FieldSpec.fstr name =>
    Except.ok ⟨st.addedStringArrays ++ [name ++ "_fuzzy"], st.addedMixedArrays,
      st.indexes ++ [(name ++ "_fuzzy", "text")], st.weights⟩
  | FieldSpec.fobj name keys weight _ _ _ =>
    if keysTruthy keys then
      match keys with
      | some (KeysVal.karr l) =>
        Except.ok ⟨st.addedStringArrays, st.addedMixedArrays ++ [name ++ "_fuzzy"],
          st.indexes ++ l.map (fun key => (name ++ "_fuzzy." ++ key ++ "_fuzzy", "text")),
          st.weights⟩
      | _ => Except.error "item.keys.forEach is not a function"
    else
      Except.ok ⟨st.addedStringArrays ++ [name ++ "_fuzzy"], st.addedMixedArrays,
        st.indexes ++ [(name ++ "_fuzzy", "text")],
        st.weights ++
          (match weight with
            | some w => if w != 0 then [(name ++ "_fuzzy", w)] else []
            | none => [])⟩

/-- Model of `createFields` (src/index.js lines 218-250). -/
def createFields (fields : List FieldSpec) : Except String BuiltSchema :=
  fields.foldlM createFieldsStep emptySchema

/-- The schema-build part of the plugin entry point (src/index.js lines
322-341): the `keys`-type validation followed by `createFields`. -/
def fuzzyPlugin (fields : List FieldSpec) : Except String BuiltSchema := do
  validateKeys fields
  createFields fields

/-- C4 (evaluation at the failing input): a NestedField whose `keys` is the
single string "label" passes the activation validation — whose error message
advertises "Key must be an array or a string." — but schema construction then
throws, because `createFields` immediately calls `item.keys.forEach` and JS
strings have no `forEach`; with the one-element list `["label"]` it succeeds.
So the claim that a string `keys` behaves like a one-element list fails on
the code. -/
theorem C4_string_keys_eval :
    validateKeys [FieldSpec.fobj "tags" (some (KeysVal.kstr "label")) none none none none] =
      Except.ok () ∧
    fuzzyPlugin [FieldSpec.fobj "tags" (some (KeysVal.kstr "label")) none none none none] =
      Except.error "item.keys.forEach is not a function" ∧
    fuzzyPlugin [FieldSpec.fobj "tags" (some (KeysVal.karr ["label"])) none none none none] =
      Except.ok ⟨[], ["tags_fuzzy"], [("tags_fuzzy.label_fuzzy", "text")], []⟩ :=
  ⟨rfl, rfl, rfl⟩

/-- An attribute value of a document: a string, an array of string-valued
sub-records (the NestedField source shape), or one of the two computed fuzzy
shapes.  Other shape mismatches between a specification and a value make the
JS code call a missing method and are modelled as the corresponding
`TypeError`. -/
inductive AttrVal where
  | astr (s : List Char)
  | arow (rows : List (List (String × List Char)))
  | atoks (toks : List (List Char))
  | anested (rows : List (List (String × List (List Char))))
deriving DecidableEq

/-- A document's attribute set, as an association list in key order. -/
abbrev Attrs := List (String × AttrVal)

/-- JS `attributes[k]`: the value stored under `k`, if any. -/
def lookupAttr (attrs : Attrs) (k : String) : Option AttrVal :=
  (attrs.find? (fun kv => kv.1 == k)).map (fun kv => kv.2)

/-- JS truthiness of an attribute access: absent and the empty string are
falsy; arrays are truthy. -/
def attrTruthy : Option AttrVal → Bool
  | none => false
  | some (AttrVal.astr s) => !(s.isEmpty)
  | some _ => true

/-- JS `attributes[k] = v`: overwrite in place, or append a new key. -/
def setAttr (attrs : Attrs) (k : String) (v : AttrVal) : Attrs :=
  if attrs.any (fun kv => kv.1 == k) then
    attrs.map (fun kv => if kv.1 == k then (k, v) else kv)
  else attrs ++ [(k, v)]

/-- One iteration of the `fields.forEach` in `createNGrams` (src/index.js
lines 259-295).  A string specification whose source attribute is truthy gets
`makeNGrams(attributes[item])` with all other arguments `undefined`; an object
specification computes `escapeSpecialCharacters !== false`, handles a truthy
`keys` by tokenizing every key of every row of the source array, and otherwise
tokenizes the source string; when the source attribute is falsy nothing
happens. -/
def createNGramsStep (attrs : Attrs) (item : FieldSpec) : Except String Attrs :=
  match item with
  | FieldSpec.fstr name =>
    if attrTruthy (lookupAttr attrs name) then
      match lookupAttr attrs name with
      | some (AttrVal.astr s) => do
          let toks ← makeNGrams s false none none
          Except.ok (setAttr attrs (name ++ "_fuzzy") (AttrVal.atoks toks))
      | _ => Except.error "attributes.item.split is not a function"
    else Except.ok attrs
  | FieldSpec.fobj name keys _ minSize prefixOnly escapeSpecialCharacters =>
    let esc : Bool :=
      match escapeSpecialCharacters with
      | some false => false
      | _ => true
    if keysTruthy keys && attrTruthy (lookupAttr attrs name) then
      match keys, lookupAttr attrs name with
      | some k, some (AttrVal.arow rows) => do
          let fuzzyRows ← rows.mapM (fun row =>
            match k with
            | KeysVal.karr l =>
                l.foldlM (fun obj key => do
                  let toks ← makeNGrams
                    (((row.find? (fun kv => kv.1 == key)).map (fun kv => kv.2)).getD [])
                    esc minSize prefixOnly
                  Except.ok (obj ++ [(key ++ "_fuzzy", toks)])) []
            | _ => Except.error "item.keys.forEach is not a function")
          Except.ok (setAttr attrs (name ++ "_fuzzy") (AttrVal.anested fuzzyRows))
      | some _, some _ => Except.error "attributes.data.forEach is not a function"
      | _, _ => Except.ok attrs
    else if attrTruthy (lookupAttr attrs name) then
      match lookupAttr attrs name with
      | some (AttrVal.astr s) => do
          let toks ← makeNGrams s esc minSize prefixOnly
          Except.ok (setAttr attrs (name ++ "_fuzzy") (AttrVal.atoks toks))
      | _ => Except.error "attributes.item.name.split is not a function"
    else Except.ok attrs

/-- Model of `createNGrams` (src/index.js lines 259-295): the `fields.forEach` over
the proposed attribute set. -/
def createNGrams (attrs : Attrs) (fields : List FieldSpec) : Except String Attrs :=
  fields.foldlM createNGramsStep attrs

/-- C7: if the source attribute named by a field specification is absent from
the proposed attribute set, the document indexer skips that specification
silently — the step writes no fuzzy attribute and raises no error — and
indexing a field list starting with such a specification equals indexing the
remaining specifications, which are still processed normally. -/
theorem C7_createNGrams_skips_absent (attrs : Attrs) (item : FieldSpec)
    (rest : List FieldSpec) (h : lookupAttr attrs (fieldName item) = none) :
    createNGramsStep attrs item = Except.ok attrs ∧
    createNGrams attrs (item :: rest) = createNGrams attrs rest := by
  have hstep : createNGramsStep attrs item = Except.ok attrs := by
    match item with
    | FieldSpec.fstr name =>
      simp only [fieldName] at h
      simp [createNGramsStep, h, attrTruthy]
    | FieldSpec.fobj name keys w mS pO e =>
      simp only [fieldName] at h
      simp [createNGramsStep, h, attrTruthy]
  refine ⟨hstep, ?_⟩
  simp only [createNGrams, List.foldlM_cons, hstep]
  rfl

/-- Witness for C7: the spec for the absent attribute `desc` is skipped while
the spec for the present attribute `title` is still processed. -/
theorem C7_witness :
    lookupAttr [("title", AttrVal.astr ['h', 'i'])] (fieldName (FieldSpec.fstr "desc")) = none ∧
    createNGramsStep [("title", AttrVal.astr ['h', 'i'])] (FieldSpec.fstr "desc") =
      Except.ok [("title", AttrVal.astr ['h', 'i'])] ∧
    createNGrams [("title", AttrVal.astr ['h', 'i'])]
        [FieldSpec.fstr "desc", FieldSpec.fstr "title"] =
      createNGrams [("title", AttrVal.astr ['h', 'i'])] [FieldSpec.fstr "title"] :=
  ⟨rfl,
    (C7_createNGrams_skips_absent [("title", AttrVal.astr ['h', 'i'])]
      (FieldSpec.fstr "desc") [FieldSpec.fstr "title"] (by rfl)).1,
    (C7_createNGrams_skips_absent [("title", AttrVal.astr ['h', 'i'])]
      (FieldSpec.fstr "desc") [FieldSpec.fstr "title"] (by rfl)).2⟩

/-- Model of `removeFuzzyElements` (src/index.js lines 303-314): the `toObject`/`toJSON`
transform; for every configured field it deletes `<name>_fuzzy` from the
serialized attribute set.  It is a total function: the JS body has no throw
path. -/
def removeFuzzyElements (fields : List FieldSpec) (ret : Attrs) : Attrs :=
  fields.foldl (fun r item => r.filter (fun kv => kv.1 != fieldName item ++ "_fuzzy")) ret

/-- Whether an attribute name ends in the `_fuzzy` suffix. -/
def endsWithFuzzy (k : String) : Bool := "_fuzzy".toList.isSuffixOf k.toList

/-- Helper: the transform equals a single filter by all configured fuzzy keys. -/
theorem removeFuzzy_eq_filter (fields : List FieldSpec) (ret : Attrs) :
    removeFuzzyElements fields ret =
      ret.filter (fun kv => fields.all (fun item => kv.1 != fieldName item ++ "_fuzzy")) := by
  induction fields generalizing ret with
  | nil => simp [removeFuzzyElements]
  | cons item rest ih =>
    have h1 : removeFuzzyElements (item :: rest) ret =
        removeFuzzyElements rest
          (ret.filter (fun kv => kv.1 != fieldName item ++ "_fuzzy")) := rfl
    rw [h1, ih, List.filter_filter]
    congr 1
    funext kv
    simp [List.all_cons, Bool.and_comm]

/-- Helper: looking up a key that the filter predicate excludes yields nothing. -/
theorem lookupAttr_filter_none (l : Attrs) (k : String) (q : String × AttrVal → Bool)
    (hq : ∀ kv, q kv = true → kv.1 ≠ k) : lookupAttr (l.filter q) k = none := by
  unfold lookupAttr
  rw [List.find?_eq_none.mpr]
  · rfl
  · intro kv hkv
    simp only [beq_iff_eq]
    exact hq kv (List.mem_filter.mp hkv).2

/-- Helper: filtering by a predicate that keeps every entry with key `k`
does not change the lookup of `k`. -/
theorem lookupAttr_filter_keeps (l : Attrs) (k : String) (q : String × AttrVal → Bool)
    (hq : ∀ kv, kv.1 = k → q kv = true) :
    lookupAttr (l.filter q) k = lookupAttr l k := by
  induction l with
  | nil => rfl
  | cons kv tl ih =>
    by_cases hqkv : q kv = true
    · rw [List.filter_cons_of_pos hqkv]
      unfold lookupAttr
      simp only [List.find?]
      cases hk : (kv.1 == k) with
      | true => rfl
      | false => exact ih
    · have hk : (kv.1 == k) = false := by
        rcases Bool.eq_false_or_eq_true (kv.1 == k) with ht | hf
        · exact absurd (hq kv (by simpa using ht)) hqkv
        · exact hf
      rw [List.filter_cons_of_neg (by simpa using hqkv)]
      unfold lookupAttr
      simp only [List.find?]
      rw [hk]
      exact ih

/-- C8: the output transform removes the synthetic `<name>_fuzzy` attribute of
every configured field (simple, weighted and nested specifications alike, via
`fieldName`), leaves every attribute whose name is none of those untouched,
and — being a total function — never fails.  Consequently, whenever every
`_fuzzy`-suffixed attribute of the document is one of the configured
synthetic attributes, the transformed document contains no attribute name
ending in `_fuzzy`. -/
theorem C8_removeFuzzyElements_correct (fields : List FieldSpec) (ret : Attrs) :
    (∀ item ∈ fields,
        lookupAttr (removeFuzzyElements fields ret) (fieldName item ++ "_fuzzy") = none) ∧
    (∀ k : String, (∀ item ∈ fields, k ≠ fieldName item ++ "_fuzzy") →
        lookupAttr (removeFuzzyElements fields ret) k = lookupAttr ret k) ∧
    ((∀ kv ∈ ret, endsWithFuzzy kv.1 = true →
        ∃ item ∈ fields, kv.1 = fieldName item ++ "_fuzzy") →
      ∀ kv ∈ removeFuzzyElements fields ret, ¬ endsWithFuzzy kv.1 = true) := by
  refine ⟨?_, ?_, ?_⟩
  · intro item hitem
    rw [removeFuzzy_eq_filter]
    apply lookupAttr_filter_none
    intro kv hkv
    have hall := List.all_eq_true.mp hkv item hitem
    simpa using hall
  · intro k hk
    rw [removeFuzzy_eq_filter]
    apply lookupAttr_filter_keeps
    intro kv hkv1
    rw [List.all_eq_true]
    intro item hitem
    simpa [hkv1] using hk item hitem
  · intro hcov kv hkv hend
    rw [removeFuzzy_eq_filter] at hkv
    obtain ⟨hmem, hall⟩ := List.mem_filter.mp hkv
    obtain ⟨item, hitem, heq⟩ := hcov kv hmem hend
    have hne := List.all_eq_true.mp hall item hitem
    simp [heq] at hne

/-- Witness for C8: a configured field's fuzzy attribute is removed, other
attributes survive, and the fully covered document loses every
`_fuzzy`-suffixed attribute. -/
theorem C8_witness :
    lookupAttr (removeFuzzyElements [FieldSpec.fstr "title"]
        [("title", AttrVal.astr ['h', 'i']), ("title_fuzzy", AttrVal.atoks [['h', 'i']])])
      (fieldName (FieldSpec.fstr "title") ++ "_fuzzy") = none ∧
    (∀ kv ∈ removeFuzzyElements [FieldSpec.fstr "title"]
        [("title", AttrVal.astr ['h', 'i']), ("title_fuzzy", AttrVal.atoks [['h', 'i']])],
      ¬ endsWithFuzzy kv.1 = true) :=
  ⟨(C8_removeFuzzyElements_correct [FieldSpec.fstr "title"]
      [("title", AttrVal.astr ['h', 'i']), ("title_fuzzy", AttrVal.atoks [['h', 'i']])]).1
      (FieldSpec.fstr "title") (List.mem_singleton.mpr rfl),
    (C8_removeFuzzyElements_correct [FieldSpec.fstr "title"]
      [("title", AttrVal.astr ['h', 'i']), ("title_fuzzy", AttrVal.atoks [['h', 'i']])]).2.2
      (by decide)⟩

end FuzzySearching
